import Mathlib

/-!
# Carrion language server: document store, request router, symbol extraction

A shallow embedding of `main.go`.  The package-level map `documents` becomes an
explicit component of a `Server` state that every handler receives and returns.
The collaborators that live outside the package (the JSON codec, the Carrion
lexer/parser, the embedded base protocol handler, and the iteration order of a Go
map) are parameters of the handlers.  Each invocation of the parser and of the
base handler is recorded in `Server.trace`, at the place where the source calls
it, so that "is / is not invoked" can be stated.  Output written with
`fmt.Printf` is not modelled.
-/

namespace CarrionLSP

/-! ## Data model -/

/-- Go `error` value: `none` is `nil`, `some msg` is a non-nil error. -/
abbrev GoError := Option String

/-- The package-level `documents` map (`map[string]string`), keyed by URI:
`none` means the key is absent. -/
abbrev Documents := String → Option String

/-- The freshly made map, `make(map[string]string)`. -/
def Documents.empty : Documents := fun _ => none

/-- Go map assignment `documents[uri] = text`. -/
def Documents.set (d : Documents) (uri text : String) : Documents :=
  fun k => if k = uri then some text else d k

/-- Request context handed over by the transport: `ctx.Method` and `ctx.Params`
(raw JSON, `none` when it is `nil`). -/
structure Context where
  method : String
  params : Option String
deriving DecidableEq, Repr

/-- Invocation of a collaborator outside the package, recorded in order. -/
inductive Call
  | parseProgram (text : String)
  | baseHandle (ctx : Context)
deriving DecidableEq, Repr

/-- Server state: the document store and the record of collaborator calls. -/
structure Server where
  documents : Documents
  trace : List Call

/-- Modelled from the spec: the protocol library's `TextDocumentItem`; of its
fields only `URI` and `Text` are read by `didOpen`. -/
structure TextDocumentItem where
  uri : String
  text : String
deriving DecidableEq, Repr

/-- Modelled from the spec: the protocol library's `DidOpenTextDocumentParams`. -/
structure DidOpenTextDocumentParams where
  textDocument : TextDocumentItem
deriving DecidableEq, Repr

/-- Modelled from the spec: a dynamically typed Go value (`any`), as stored in the
entries of `ContentChanges`. -/
inductive AnyValue
  | null
  | bool (b : Bool)
  | number (n : Int)
  | string (s : String)
  | array (xs : List AnyValue)
  | object (fields : List (String × AnyValue))

/-- Modelled from the spec: the protocol library's `DidChangeTextDocumentParams`;
`uri` is `TextDocument.URI`. -/
structure DidChangeTextDocumentParams where
  uri : String
  contentChanges : List AnyValue

/-- Modelled from the spec: a range of the protocol library (start line/character,
end line/character). -/
structure Range where
  startLine : Nat
  startCharacter : Nat
  endLine : Nat
  endCharacter : Nat
deriving DecidableEq, Repr

/-- Modelled from the spec: the protocol library's `TextDocumentContentChangeEvent`;
`didChange` reads only `Text`. -/
structure TextDocumentContentChangeEvent where
  range : Option Range
  rangeLength : Option Nat
  text : String
deriving DecidableEq, Repr

/-- Modelled from the spec: the protocol library's `CompletionParams`; `uri` is
`TextDocument.URI`, the cursor position is accepted but never read. -/
structure CompletionParams where
  uri : String
  line : Nat
  character : Nat
deriving DecidableEq, Repr

/-- Modelled from the spec: the protocol library's completion item kinds (LSP 3.16
numbering order); `variable` is `CompletionItemKindVariable`. -/
inductive CompletionItemKind
  | text | method | function | constructor | field | variable | class_ | interface
deriving DecidableEq, Repr

/-- Modelled from the spec: the protocol library's `CompletionItem`; only `Label`
and `Kind` (a pointer, `none` when nil) are set by `completion`. -/
structure CompletionItem where
  label : String
  kind : Option CompletionItemKind
deriving DecidableEq, Repr

/-- Modelled from the spec: the protocol library's `CompletionList`.  A nil slice and
an empty slice of items are both the empty list. -/
structure CompletionList where
  isIncomplete : Bool
  items : List CompletionItem
deriving DecidableEq, Repr

/-- Modelled from the spec: the Carrion `ast.Identifier`; only `Value` is read. -/
structure Identifier where
  value : String
deriving DecidableEq, Repr

/-- Modelled from the spec: the Carrion `ast.Expression` interface: either an
`*ast.Identifier` or a node of any other expression type (with its operands). -/
inductive Expression
  | identifier (id : Identifier)
  | other (kind : String) (operands : List Expression)

/-- Modelled from the spec: the Carrion `ast.Statement` interface: an
`*ast.FunctionDefinition` (its `Name` pointer may be nil; the body is a nested
statement sequence), an `*ast.AssignStatement` (its `Name` is an expression), or a
node of any other statement type (with its nested statements). -/
inductive Statement
  | functionDefinition (name : Option Identifier) (body : List Statement)
  | assignStatement (name : Expression) (value : Expression)
  | other (kind : String) (children : List Statement)

/-- Modelled from the spec: the Carrion `ast.Program`: the top-level statements. -/
structure Program where
  statements : List Statement

/-- The `any` result of `Handle`: nil, the completion list built by `completion`, or
whatever else the base handler produced. -/
inductive AnyResult
  | nil
  | completionList (l : CompletionList)
  | foreign (payload : String)
deriving DecidableEq, Repr

/-- The four values returned by `Handle`: `(result, handled, synchronous, err)`. -/
structure HandleReturn where
  result : AnyResult
  handled : Bool
  synchronous : Bool
  err : GoError
deriving DecidableEq, Repr

/-! ## Collaborators -/

/-- The `encoding/json` calls made by the package.  `marshalParams` is
`json.Marshal(ctx.Params)`; the three `unmarshal…Params` are `json.Unmarshal(b, &p)`
at the three parameter types; `marshalAny` is `json.Marshal(params.ContentChanges[0])`
and `unmarshalChange` is `json.Unmarshal(b, &change)`. -/
structure JsonCodec where
  marshalParams : String → Except String String
  unmarshalDidOpenParams : String → Except String DidOpenTextDocumentParams
  unmarshalDidChangeParams : String → Except String DidChangeTextDocumentParams
  unmarshalCompletionParams : String → Except String CompletionParams
  marshalAny : AnyValue → Except String String
  unmarshalChange : String → Except String TextDocumentContentChangeEvent

/-- The lexer/parser collaborator: `lexer.New`, `parser.New`, `p.ParseProgram()` and
`p.Errors()` together map a text to a tree and a list of error messages. -/
abbrev ProgramParser := String → Program × List String

/-- The embedded `protocol.Handler`: `h.Handler.Handle(ctx)`.  It has no access to
the unexported `documents` map. -/
abbrev BaseHandler := Context → HandleReturn

/-- Iteration order of a Go `for … range` over a map: unspecified, so any function
that returns the keys in some rearrangement. -/
structure RangeOrder where
  visit : List String → List String
  perm : ∀ ks, (visit ks).Perm ks

/-- Visits the keys in the order in which they were inserted. -/
def RangeOrder.insertion : RangeOrder := ⟨fun ks => ks, fun _ => List.Perm.refl _⟩

/-- Visits the keys in the reverse of the order of insertion. -/
def RangeOrder.reversed : RangeOrder := ⟨List.reverse, fun ks => List.reverse_perm ks⟩

/-! ## The handlers of `main.go` -/

/-- The function `unmarshalParams(ctx, target)`: nil parameters are an error; otherwise
the parameters are marshalled and the bytes unmarshalled into the target. -/
def unmarshalParams {α : Type} (json : JsonCodec) (ctx : Context)
    (unmarshal : String → Except String α) : Except String α :=
  match ctx.params with
  | none => .error "no params found in context"
  | some raw =>
    match json.marshalParams raw with
    | .error e => .error e
    | .ok b => unmarshal b

/-- The function `didOpen`: stores the text of the opened document. -/
def didOpen (params : DidOpenTextDocumentParams) (s : Server) : GoError × Server :=
  (none, { s with documents := s.documents.set params.textDocument.uri params.textDocument.text })

/-- The function `didChange`: with a non-empty change list, re-encodes and decodes the
first entry and stores its text; with an empty one does nothing. -/
def didChange (json : JsonCodec) (params : DidChangeTextDocumentParams) (s : Server) :
    GoError × Server :=
  match params.contentChanges with
  | first :: _ =>
    match json.marshalAny first with
    | .error e => (some e, s)
    | .ok b =>
      match json.unmarshalChange b with
      | .error e => (some e, s)
      | .ok change => (none, { s with documents := s.documents.set params.uri change.text })
  | [] => (none, s)

/-- Go map assignment `symbolSet[k] = struct{}{}` on a key set kept as a duplicate-free
list. -/
def insertKey (m : List String) (k : String) : List String :=
  if k ∈ m then m else m ++ [k]

/-- One iteration of the first loop of `extractSymbols`: the type switch. -/
def collectSymbol (m : List String) : Statement → List String
  | .functionDefinition (some id) _ => insertKey m id.value
  | .functionDefinition none _ => m
  | .assignStatement (.identifier id) _ => insertKey m id.value
  | .assignStatement (.other _ _) _ => m
  | .other _ _ => m

/-- The key set `symbolSet` after the first loop of `extractSymbols`. -/
def symbolSet (program : Program) : List String :=
  program.statements.foldl collectSymbol []

/-- The function `extractSymbols`: the keys of `symbolSet`, in map-iteration order. -/
def extractSymbols (order : RangeOrder) (program : Program) : List String :=
  order.visit (symbolSet program)

/-- The function `completion`. -/
def completion (parse : ProgramParser) (order : RangeOrder) (params : CompletionParams)
    (s : Server) : (CompletionList × GoError) × Server :=
  match s.documents params.uri with
  | none => (({ isIncomplete := false, items := [] }, none), s)
  | some doc =>
    let parsed := parse doc
    let s1 : Server := { s with trace := s.trace ++ [Call.parseProgram doc] }
    if parsed.2.length > 0 then
      (({ isIncomplete := false, items := [] }, none), s1)
    else
      let symbols := extractSymbols order parsed.1
      let items := symbols.map
        (fun sym => ({ label := sym, kind := some CompletionItemKind.variable } : CompletionItem))
      (({ isIncomplete := false, items := items }, none), s1)

/-- The method `(*myHandler).Handle`. -/
def Handle (json : JsonCodec) (parse : ProgramParser) (order : RangeOrder)
    (base : BaseHandler) (ctx : Context) (s : Server) : HandleReturn × Server :=
  if ctx.method = "textDocument/didOpen" then
    match unmarshalParams json ctx json.unmarshalDidOpenParams with
    | .error e => (⟨.nil, true, false, some e⟩, s)
    | .ok p =>
      let r := didOpen p s
      (⟨.nil, true, false, r.1⟩, r.2)
  else if ctx.method = "textDocument/didChange" then
    match unmarshalParams json ctx json.unmarshalDidChangeParams with
    | .error e => (⟨.nil, true, false, some e⟩, s)
    | .ok p =>
      let r := didChange json p s
      (⟨.nil, true, false, r.1⟩, r.2)
  else if ctx.method = "textDocument/completion" then
    match unmarshalParams json ctx json.unmarshalCompletionParams with
    | .error e => (⟨.nil, true, false, some e⟩, s)
    | .ok p =>
      let r := completion parse order p s
      (⟨.completionList r.1.1, true, false, r.1.2⟩, r.2)
  else
    (base ctx, { s with trace := s.trace ++ [Call.baseHandle ctx] })

/-! ## Notification sequences -/

/-- A document notification: the decoded parameters of a `didOpen` or a `didChange`. -/
inductive Notification
  | didOpen (params : DidOpenTextDocumentParams)
  | didChange (params : DidChangeTextDocumentParams)

/-- The URI a notification targets. -/
def Notification.uri : Notification → String
  | .didOpen params => params.textDocument.uri
  | .didChange params => params.uri

/-- Runs the handler of one notification and keeps the resulting state. -/
def applyNotification (json : JsonCodec) (s : Server) : Notification → Server
  | .didOpen params => (didOpen params s).2
  | .didChange params => (didChange json params s).2

/-- Runs the handlers of a sequence of notifications, first to last. -/
def applyNotifications (json : JsonCodec) (s : Server) (ns : List Notification) : Server :=
  ns.foldl (applyNotification json) s

/-! ## Specification-side definitions -/

/-- The text of a content-change entry: what re-encoding and decoding it as a change
event yields, if that succeeds. -/
def changeText (json : JsonCodec) (entry : AnyValue) : Option String :=
  match json.marshalAny entry with
  | .error _ => none
  | .ok b =>
    match json.unmarshalChange b with
    | .error _ => none
    | .ok change => some change.text

/-- The text a notification carries: the text of a `didOpen`, or the text of the first
content-change entry of a `didChange` whose change list is not empty. -/
def carriedText (json : JsonCodec) : Notification → Option String
  | .didOpen params => some params.textDocument.text
  | .didChange params =>
    match params.contentChanges with
    | [] => none
    | first :: _ => changeText json first

/-- The text carried by the last notification of the sequence that targets `u` and
carries text, if there is one. -/
def lastTextFor (json : JsonCodec) (u : String) (ns : List Notification) : Option String :=
  (ns.filterMap (fun n => if n.uri = u then carriedText json n else none)).getLast?

/-- The name a top-level statement declares, if any. -/
def declaredName : Statement → Option String
  | .functionDefinition (some id) _ => some id.value
  | .assignStatement (.identifier id) _ => some id.value
  | _ => none

/-- The names declared by the top-level statements, in order, with repetitions. -/
def declaredNames (program : Program) : List String :=
  program.statements.filterMap declaredName

/-- A payload is missing (`none`) or fails to decode: marshalling it fails, or
unmarshalling the bytes into the parameter structure fails. -/
def undecodable {α : Type} (json : JsonCodec) (unmarshal : String → Except String α)
    (payload : Option String) : Bool :=
  match payload with
  | none => true
  | some raw =>
    match json.marshalParams raw with
    | .error _ => true
    | .ok b =>
      match unmarshal b with
      | .error _ => true
      | .ok _ => false

/-- The payload decodes into `didChange` parameters with a non-empty change list whose
first entry fails to decode as a change event. -/
def firstChangeUndecodable (json : JsonCodec) (payload : Option String) : Bool :=
  match payload with
  | none => false
  | some raw =>
    match json.marshalParams raw with
    | .error _ => false
    | .ok b =>
      match json.unmarshalDidChangeParams b with
      | .error _ => false
      | .ok params =>
        match params.contentChanges with
        | [] => false
        | first :: _ => (changeText json first).isNone

/-- A request to one of the three document methods whose payload is missing or fails
to decode into the parameter structure of that method. -/
def malformedRequest (json : JsonCodec) (ctx : Context) : Bool :=
  (ctx.method == "textDocument/didOpen" &&
    undecodable json json.unmarshalDidOpenParams ctx.params) ||
  (ctx.method == "textDocument/didChange" &&
    (undecodable json json.unmarshalDidChangeParams ctx.params ||
      firstChangeUndecodable json ctx.params)) ||
  (ctx.method == "textDocument/completion" &&
    undecodable json json.unmarshalCompletionParams ctx.params)

/-! ## Sample collaborators for the concrete instances -/

/-- A small codec: raw payloads marshal to themselves except `"?"`; the bytes `"!"` do
not unmarshal; any other bytes name both the URI and the text.  An `any` entry
marshals only if it is a string; the bytes `"new"` unmarshal to a change with a range,
empty bytes do not unmarshal, any other bytes unmarshal to a change without a range. -/
def sampleCodec : JsonCodec where
  marshalParams raw := if raw = "?" then .error "invalid payload" else .ok raw
  unmarshalDidOpenParams b :=
    if b = "!" then .error "cannot unmarshal" else .ok ⟨⟨b, b⟩⟩
  unmarshalDidChangeParams b :=
    if b = "!" then .error "cannot unmarshal"
    else if b = "a" then .ok ⟨b, [AnyValue.null]⟩
    else .ok ⟨b, [AnyValue.string b]⟩
  unmarshalCompletionParams b :=
    if b = "!" then .error "cannot unmarshal" else .ok ⟨b, 0, 0⟩
  marshalAny v :=
    match v with
    | .string t => .ok t
    | _ => .error "unsupported value"
  unmarshalChange b :=
    if b = "" then .error "unexpected end of input"
    else if b = "new" then .ok ⟨some ⟨0, 0, 0, 3⟩, some 3, b⟩
    else .ok ⟨none, none, b⟩

/-- A small parser: it knows three texts and reports an error for every other one. -/
def sampleParser : ProgramParser := fun text =>
  if text = "f g x" then
    (⟨[.functionDefinition (some ⟨"f"⟩) [.assignStatement (.identifier ⟨"y"⟩) (.other "1" [])],
       .functionDefinition (some ⟨"g"⟩) [],
       .assignStatement (.identifier ⟨"x"⟩) (.other "1" [])]⟩, [])
  else if text = "x x" then
    (⟨[.assignStatement (.identifier ⟨"x"⟩) (.other "1" []),
       .assignStatement (.identifier ⟨"x"⟩) (.other "2" [])]⟩, [])
  else
    (⟨[.assignStatement (.identifier ⟨"z"⟩) (.other "1" [])]⟩, ["unexpected token"])

/-- A base handler that answers every request with a fixed payload and an error. -/
def sampleBase : BaseHandler := fun ctx => ⟨.foreign ctx.method, true, true, some "not ready"⟩

/-- A store with the single document `"a"`. -/
def sampleServer : Server := ⟨Documents.empty.set "a" "f g x", []⟩

end CarrionLSP

namespace CarrionLSP

/-! ## Auxiliary lemmas -/

theorem Documents.set_same (d : Documents) (u t : String) : (d.set u t) u = some t := by
  simp [Documents.set]

theorem Documents.set_other (d : Documents) (u t k : String) (h : k ≠ u) :
    (d.set u t) k = d k := by
  simp [Documents.set, h]

theorem mem_insertKey (m : List String) (k n : String) :
    n ∈ insertKey m k ↔ n ∈ m ∨ n = k := by
  unfold insertKey
  split
  · constructor
    · intro h; exact Or.inl h
    · rintro (h | h)
      · exact h
      · subst h; assumption
  · simp

theorem nodup_insertKey (m : List String) (k : String) (h : m.Nodup) :
    (insertKey m k).Nodup := by
  unfold insertKey
  split
  · exact h
  · rename_i hk
    rw [List.nodup_append]
    refine ⟨h, List.nodup_singleton k, ?_⟩
    intro a ha hb
    simp only [List.mem_singleton] at hb
    subst hb
    exact hk ha

theorem collectSymbol_eq (m : List String) (st : Statement) :
    collectSymbol m st =
      match declaredName st with
      | some k => insertKey m k
      | none => m := by
  cases st with
  | functionDefinition name body => cases name <;> rfl
  | assignStatement name value => cases name <;> rfl
  | other kind children => rfl

theorem mem_foldl_collectSymbol (stmts : List Statement) (m : List String) (n : String) :
    n ∈ stmts.foldl collectSymbol m ↔ n ∈ m ∨ ∃ st ∈ stmts, declaredName st = some n := by
  induction stmts generalizing m with
  | nil => simp
  | cons st rest ih =>
    rw [List.foldl_cons, ih, collectSymbol_eq]
    cases hd : declaredName st with
    | none => simp [hd]
    | some k =>
      simp only [mem_insertKey, List.mem_cons, exists_eq_or_imp, hd, Option.some.injEq]
      constructor
      · rintro ((h | h) | h)
        · exact Or.inl h
        · exact Or.inr (Or.inl h.symm)
        · exact Or.inr (Or.inr h)
      · rintro (h | h | h)
        · exact Or.inl (Or.inl h)
        · exact Or.inl (Or.inr h.symm)
        · exact Or.inr h

theorem nodup_foldl_collectSymbol (stmts : List Statement) (m : List String) (h : m.Nodup) :
    (stmts.foldl collectSymbol m).Nodup := by
  induction stmts generalizing m with
  | nil => exact h
  | cons st rest ih =>
    rw [List.foldl_cons]
    apply ih
    rw [collectSymbol_eq]
    cases declaredName st with
    | none => exact h
    | some k => exact nodup_insertKey m k h

theorem mem_symbolSet (program : Program) (n : String) :
    n ∈ symbolSet program ↔ ∃ st ∈ program.statements, declaredName st = some n := by
  simp [symbolSet, mem_foldl_collectSymbol]

theorem nodup_symbolSet (program : Program) : (symbolSet program).Nodup :=
  nodup_foldl_collectSymbol _ _ List.nodup_nil

theorem mem_extractSymbols (order : RangeOrder) (program : Program) (n : String) :
    n ∈ extractSymbols order program ↔ ∃ st ∈ program.statements, declaredName st = some n := by
  unfold extractSymbols
  rw [(order.perm _).mem_iff, mem_symbolSet]

theorem nodup_extractSymbols (order : RangeOrder) (program : Program) :
    (extractSymbols order program).Nodup :=
  (order.perm _).nodup_iff.mpr (nodup_symbolSet program)

theorem declaredName_eq_some (st : Statement) (n : String) :
    declaredName st = some n ↔
      (∃ id body, st = .functionDefinition (some id) body ∧ id.value = n) ∨
      (∃ id value, st = .assignStatement (.identifier id) value ∧ id.value = n) := by
  cases st with
  | functionDefinition name body =>
    cases name with
    | none => simp [declaredName]
    | some id =>
      simp only [declaredName, Option.some.injEq, Statement.functionDefinition.injEq,
        Option.some.injEq, false_and, exists_false, or_false, reduceCtorEq]
      constructor
      · intro h; exact ⟨id, body, ⟨rfl, rfl⟩, h⟩
      · rintro ⟨id1, body1, ⟨h1, _⟩, h2⟩; rw [h1]; exact h2
  | assignStatement name value =>
    cases name with
    | identifier id =>
      simp only [declaredName, Option.some.injEq, Statement.assignStatement.injEq,
        Expression.identifier.injEq, false_and, exists_false, false_or, reduceCtorEq]
      constructor
      · intro h; exact ⟨id, value, ⟨rfl, rfl⟩, h⟩
      · rintro ⟨id1, v1, ⟨h1, _⟩, h2⟩; rw [h1]; exact h2
    | other kind operands => simp [declaredName]
  | other kind children => simp [declaredName]

theorem mem_declaredNames (program : Program) (n : String) :
    n ∈ declaredNames program ↔ ∃ st ∈ program.statements, declaredName st = some n := by
  simp [declaredNames, List.mem_filterMap]

theorem length_extractSymbols (order : RangeOrder) (program : Program) :
    (extractSymbols order program).length = (declaredNames program).toFinset.card := by
  rw [← List.toFinset_card_of_nodup (nodup_extractSymbols order program)]
  congr 1
  ext n
  simp only [List.mem_toFinset, mem_extractSymbols, mem_declaredNames]

theorem completion_unknown (parse : ProgramParser) (order : RangeOrder)
    (params : CompletionParams) (s : Server) (h : s.documents params.uri = none) :
    completion parse order params s = (({ isIncomplete := false, items := [] }, none), s) := by
  simp [completion, h]

theorem completion_parse_errors (parse : ProgramParser) (order : RangeOrder)
    (params : CompletionParams) (s : Server) (doc : String)
    (h : s.documents params.uri = some doc) (herr : (parse doc).2 ≠ []) :
    completion parse order params s =
      (({ isIncomplete := false, items := [] }, none),
        { s with trace := s.trace ++ [Call.parseProgram doc] }) := by
  have hlen : (parse doc).2.length > 0 := List.length_pos.mpr herr
  simp [completion, h, hlen]

theorem completion_parsed (parse : ProgramParser) (order : RangeOrder)
    (params : CompletionParams) (s : Server) (doc : String)
    (h : s.documents params.uri = some doc) (herr : (parse doc).2 = []) :
    completion parse order params s =
      (({ isIncomplete := false,
          items := (extractSymbols order (parse doc).1).map
            (fun sym => ({ label := sym, kind := some CompletionItemKind.variable } :
              CompletionItem)) }, none),
        { s with trace := s.trace ++ [Call.parseProgram doc] }) := by
  simp [completion, h, herr]

theorem completion_documents (parse : ProgramParser) (order : RangeOrder)
    (params : CompletionParams) (s : Server) :
    (completion parse order params s).2.documents = s.documents := by
  unfold completion
  split
  · rfl
  · dsimp only
    split <;> rfl

/-! ## Symbol extraction -/

/-- C5: a name occurs in the result of `extractSymbols` exactly when some top-level
statement is a function definition with that (non-nil) name or an assignment whose
target is an identifier with that value.  In particular a function definition
contributes its own name only, whatever its body binds, and a program made of nameless
function definitions, assignments to other targets and statements of other types
yields no name at all. -/
theorem extractSymbols_mem_iff (order : RangeOrder) (program : Program) (n : String) :
    (n ∈ extractSymbols order program ↔
      (∃ id body, Statement.functionDefinition (some id) body ∈ program.statements ∧
        id.value = n) ∨
      (∃ id value, Statement.assignStatement (Expression.identifier id) value ∈
        program.statements ∧ id.value = n)) ∧
    (∀ (f : Identifier) (body : List Statement), f.value ≠ n →
      n ∉ extractSymbols order ⟨[Statement.functionDefinition (some f) body]⟩) ∧
    (∀ stmts : List Statement,
      (∀ st ∈ stmts, (∃ body, st = Statement.functionDefinition none body) ∨
        (∃ kind operands value,
          st = Statement.assignStatement (Expression.other kind operands) value) ∨
        (∃ kind children, st = Statement.other kind children)) →
      extractSymbols order ⟨stmts⟩ = []) := by
  refine ⟨?_, ?_, ?_⟩
  · rw [mem_extractSymbols]
    constructor
    · rintro ⟨st, hst, hd⟩
      rcases (declaredName_eq_some st n).mp hd with ⟨id, body, rfl, hn⟩ | ⟨id, v, rfl, hn⟩
      · exact Or.inl ⟨id, body, hst, hn⟩
      · exact Or.inr ⟨id, v, hst, hn⟩
    · rintro (⟨id, body, hst, hn⟩ | ⟨id, v, hst, hn⟩)
      · exact ⟨_, hst, (declaredName_eq_some _ n).mpr (Or.inl ⟨id, body, rfl, hn⟩)⟩
      · exact ⟨_, hst, (declaredName_eq_some _ n).mpr (Or.inr ⟨id, v, rfl, hn⟩)⟩
  · intro f body hne hmem
    rw [mem_extractSymbols] at hmem
    obtain ⟨st, hst, hd⟩ := hmem
    simp only [List.mem_singleton] at hst
    subst hst
    simp only [declaredName, Option.some.injEq] at hd
    exact hne hd
  · intro stmts hall
    apply List.eq_nil_iff_forall_not_mem.mpr
    intro a ha
    rw [mem_extractSymbols] at ha
    obtain ⟨st, hst, hd⟩ := ha
    rcases hall st hst with ⟨body, rfl⟩ | ⟨kind, operands, value, rfl⟩ | ⟨kind, children, rfl⟩ <;>
      simp [declaredName] at hd

/-- C5, concrete instance: in the sample program the name `y`, assigned only inside the
body of `f`, is not extracted, and a program of one `if` statement that assigns `y`
inside yields nothing. -/
theorem extractSymbols_mem_iff_witness :
    "y" ∉ extractSymbols RangeOrder.reversed (sampleParser "f g x").1 ∧
    "y" ∉ extractSymbols RangeOrder.reversed
      ⟨[Statement.functionDefinition (some ⟨"f"⟩)
        [Statement.assignStatement (Expression.identifier ⟨"y"⟩) (Expression.other "1" [])]]⟩ ∧
    extractSymbols RangeOrder.reversed
      ⟨[Statement.other "if"
        [Statement.assignStatement (Expression.identifier ⟨"y"⟩) (Expression.other "1" [])],
        Statement.assignStatement (Expression.other "index" [Expression.identifier ⟨"y"⟩])
          (Expression.other "1" [])]⟩ = [] :=
  ⟨by decide,
   (extractSymbols_mem_iff RangeOrder.reversed (sampleParser "f g x").1 "y").2.1 ⟨"f"⟩ _
     (by decide),
   (extractSymbols_mem_iff RangeOrder.reversed (sampleParser "f g x").1 "y").2.2 _
     (by
      intro st hst
      simp only [List.mem_cons, List.mem_singleton, List.not_mem_nil, or_false] at hst
      rcases hst with rfl | rfl
      · exact Or.inr (Or.inr ⟨_, _, rfl⟩)
      · exact Or.inr (Or.inl ⟨_, _, _, rfl⟩))⟩

/-- C7: the set of names returned by `extractSymbols` is the same on every run (whatever
the map iteration order of each run) and the same for every rearrangement of the
top-level statements. -/
theorem extractSymbols_set_stable (order1 order2 : RangeOrder) (program : Program) :
    (extractSymbols order1 program).toFinset = (extractSymbols order2 program).toFinset ∧
    ∀ stmts : List Statement, stmts.Perm program.statements →
      (extractSymbols order1 ⟨stmts⟩).toFinset = (extractSymbols order2 program).toFinset := by
  have key : ∀ stmts : List Statement, stmts.Perm program.statements →
      (extractSymbols order1 ⟨stmts⟩).toFinset = (extractSymbols order2 program).toFinset := by
    intro stmts hp
    ext n
    simp only [List.mem_toFinset, mem_extractSymbols]
    constructor
    · rintro ⟨st, hst, hd⟩; exact ⟨st, hp.mem_iff.mp hst, hd⟩
    · rintro ⟨st, hst, hd⟩; exact ⟨st, hp.mem_iff.mpr hst, hd⟩
  exact ⟨key program.statements (List.Perm.refl _), key⟩

/-- C7, concrete instance: the sample program with its statements reversed and another
iteration order gives the same set of names. -/
theorem extractSymbols_set_stable_witness :
    (sampleParser "f g x").1.statements.reverse.Perm (sampleParser "f g x").1.statements ∧
    (extractSymbols RangeOrder.insertion ⟨(sampleParser "f g x").1.statements.reverse⟩).toFinset
      = (extractSymbols RangeOrder.reversed (sampleParser "f g x").1).toFinset :=
  ⟨List.reverse_perm _,
   (extractSymbols_set_stable RangeOrder.insertion RangeOrder.reversed
     (sampleParser "f g x").1).2 _ (List.reverse_perm _)⟩

/-! ## Completion -/

/-- C3: for a URI with no entry in the store, `completion` returns no error and the
list with `isIncomplete = false` and no items, and leaves the state as it was: in
particular nothing is added to the record of calls, so the parser is not invoked. -/
theorem completion_unknown_uri (parse : ProgramParser) (order : RangeOrder)
    (params : CompletionParams) (s : Server) (h : s.documents params.uri = none) :
    (completion parse order params s).1.2 = none ∧
    (completion parse order params s).1.1 = { isIncomplete := false, items := [] } ∧
    (completion parse order params s).2.trace = s.trace ∧
    (completion parse order params s).2 = s ∧
    ∀ text, Call.parseProgram text ∈ (completion parse order params s).2.trace →
      Call.parseProgram text ∈ s.trace := by
  rw [completion_unknown parse order params s h]
  exact ⟨rfl, rfl, rfl, rfl, fun _ hm => hm⟩

/-- C3, concrete instance: completion for `"b"` on a store that holds only `"a"`. -/
theorem completion_unknown_uri_witness :
    sampleServer.documents "b" = none ∧
    (completion sampleParser RangeOrder.insertion ⟨"b", 0, 0⟩ sampleServer).1.1 =
      { isIncomplete := false, items := [] } ∧
    (completion sampleParser RangeOrder.insertion ⟨"b", 0, 0⟩ sampleServer).2.trace = [] :=
  ⟨by decide,
   (completion_unknown_uri sampleParser RangeOrder.insertion ⟨"b", 0, 0⟩ sampleServer
     (by decide)).2.1,
   (completion_unknown_uri sampleParser RangeOrder.insertion ⟨"b", 0, 0⟩ sampleServer
     (by decide)).2.2.1⟩

/-- C4: for a stored document on which the parser reports at least one error,
`completion` returns no error and the list with `isIncomplete = false` and no items,
whatever tree came with the errors: no name extracted from that tree labels an item. -/
theorem completion_parse_failure (parse : ProgramParser) (order : RangeOrder)
    (params : CompletionParams) (s : Server) (doc : String)
    (h : s.documents params.uri = some doc) (herr : (parse doc).2 ≠ []) :
    (completion parse order params s).1.2 = none ∧
    (completion parse order params s).1.1 = { isIncomplete := false, items := [] } ∧
    ∀ (order1 : RangeOrder) (n : String), n ∈ extractSymbols order1 (parse doc).1 →
      ∀ item ∈ (completion parse order params s).1.1.items, item.label ≠ n := by
  rw [completion_parse_errors parse order params s doc h herr]
  refine ⟨rfl, rfl, ?_⟩
  intro _ _ _ item hitem
  simp at hitem

/-- C4, concrete instance: the sample parser reports an error on `"z ="` and returns a
tree that declares `z`; completion still has no items. -/
theorem completion_parse_failure_witness :
    (Documents.empty.set "c" "z =") "c" = some "z =" ∧
    (sampleParser "z =").2 ≠ [] ∧
    "z" ∈ extractSymbols RangeOrder.insertion (sampleParser "z =").1 ∧
    (completion sampleParser RangeOrder.insertion ⟨"c", 0, 0⟩
      ⟨Documents.empty.set "c" "z =", []⟩).1.1 = { isIncomplete := false, items := [] } :=
  ⟨by decide, by decide, by decide,
   (completion_parse_failure sampleParser RangeOrder.insertion ⟨"c", 0, 0⟩
     ⟨Documents.empty.set "c" "z =", []⟩ "z =" (by decide) (by decide)).2.1⟩

/-- C6: for a stored document that parses without errors, `completion` returns no error
and a list with `isIncomplete = false` whose labels are pairwise distinct, are exactly
the names `extractSymbols` returns (under any iteration order), number as many as there
are distinct top-level declared names, and whose kinds are all the Variable kind.  When
the top-level statements are, in any order, the definitions of `f` and `g` and an
assignment to `x`, the labels are exactly `f`, `g` and `x`. -/
theorem completion_items (parse : ProgramParser) (order : RangeOrder)
    (params : CompletionParams) (s : Server) (doc : String)
    (h : s.documents params.uri = some doc) (herr : (parse doc).2 = []) :
    (completion parse order params s).1.2 = none ∧
    (completion parse order params s).1.1.isIncomplete = false ∧
    ((completion parse order params s).1.1.items.map CompletionItem.label).Nodup ∧
    (∀ (order1 : RangeOrder) (n : String),
      n ∈ (completion parse order params s).1.1.items.map CompletionItem.label ↔
        n ∈ extractSymbols order1 (parse doc).1) ∧
    (completion parse order params s).1.1.items.length =
      (declaredNames (parse doc).1).toFinset.card ∧
    (∀ item ∈ (completion parse order params s).1.1.items,
      item.kind = some CompletionItemKind.variable) ∧
    (∀ (f g x : Identifier) (bodyF bodyG : List Statement) (value : Expression),
      (parse doc).1.statements.Perm
        [Statement.functionDefinition (some f) bodyF,
         Statement.functionDefinition (some g) bodyG,
         Statement.assignStatement (Expression.identifier x) value] →
      ∀ n, n ∈ (completion parse order params s).1.1.items.map CompletionItem.label ↔
        n = f.value ∨ n = g.value ∨ n = x.value) := by
  rw [completion_parsed parse order params s doc h herr]
  have hlabels : List.map CompletionItem.label
      ((extractSymbols order (parse doc).1).map
        (fun sym => ({ label := sym, kind := some CompletionItemKind.variable } :
          CompletionItem))) = extractSymbols order (parse doc).1 := by
    rw [List.map_map]
    exact List.map_id _
  dsimp only
  rw [hlabels]
  refine ⟨rfl, rfl, nodup_extractSymbols _ _, ?_, ?_, ?_, ?_⟩
  · intro order1 n
    rw [mem_extractSymbols, mem_extractSymbols]
  · rw [List.length_map]
    exact length_extractSymbols _ _
  · intro item hitem
    obtain ⟨sym, _, rfl⟩ := List.mem_map.mp hitem
    rfl
  · intro f g x bodyF bodyG value hp n
    rw [mem_extractSymbols]
    constructor
    · rintro ⟨st, hst, hd⟩
      have hst1 := hp.mem_iff.mp hst
      simp only [List.mem_cons, List.mem_singleton, List.not_mem_nil, or_false] at hst1
      rcases hst1 with rfl | rfl | rfl <;>
        simp only [declaredName, Option.some.injEq] at hd
      · exact Or.inl hd.symm
      · exact Or.inr (Or.inl hd.symm)
      · exact Or.inr (Or.inr hd.symm)
    · rintro (rfl | rfl | rfl)
      · exact ⟨Statement.functionDefinition (some f) bodyF,
          hp.mem_iff.mpr (List.mem_cons_self _ _), rfl⟩
      · exact ⟨Statement.functionDefinition (some g) bodyG,
          hp.mem_iff.mpr (List.mem_cons_of_mem _ (List.mem_cons_self _ _)), rfl⟩
      · exact ⟨Statement.assignStatement (Expression.identifier x) value,
          hp.mem_iff.mpr
            (List.mem_cons_of_mem _ (List.mem_cons_of_mem _ (List.mem_cons_self _ _))), rfl⟩

/-- C6, concrete instance: the stored text `"f g x"` parses to the definitions of `f`
and `g` and an assignment to `x`; the labels are exactly these three names.  The text
`"x x"` parses to two assignments to `x`; completion has the single item `x`. -/
theorem completion_items_witness :
    sampleServer.documents "a" = some "f g x" ∧
    (sampleParser "f g x").2 = [] ∧
    (∀ n, n ∈ (completion sampleParser RangeOrder.reversed ⟨"a", 0, 0⟩
        sampleServer).1.1.items.map CompletionItem.label ↔ n = "f" ∨ n = "g" ∨ n = "x") ∧
    (completion sampleParser RangeOrder.reversed ⟨"a", 0, 0⟩ sampleServer).1.1.items =
      [{ label := "x", kind := some CompletionItemKind.variable },
       { label := "g", kind := some CompletionItemKind.variable },
       { label := "f", kind := some CompletionItemKind.variable }] ∧
    (completion sampleParser RangeOrder.reversed ⟨"d", 0, 0⟩
      ⟨Documents.empty.set "d" "x x", []⟩).1.1.items =
      [{ label := "x", kind := some CompletionItemKind.variable }] :=
  ⟨by decide, by decide,
   (completion_items sampleParser RangeOrder.reversed ⟨"a", 0, 0⟩ sampleServer "f g x"
     (by decide) (by decide)).2.2.2.2.2.2 ⟨"f"⟩ ⟨"g"⟩ ⟨"x"⟩ _ _ _ (List.Perm.refl _),
   by decide, by decide⟩

/-! ## The document store -/

theorem didOpen_documents (params : DidOpenTextDocumentParams) (s : Server) :
    (didOpen params s).2.documents =
      s.documents.set params.textDocument.uri params.textDocument.text := rfl

theorem didChange_documents (json : JsonCodec) (params : DidChangeTextDocumentParams)
    (s : Server) :
    (didChange json params s).2.documents =
      match carriedText json (Notification.didChange params) with
      | some t => s.documents.set params.uri t
      | none => s.documents := by
  obtain ⟨uri, changes⟩ := params
  cases changes with
  | nil => rfl
  | cons first rest =>
    cases hm : json.marshalAny first with
    | error e => simp [didChange, carriedText, changeText, hm]
    | ok b =>
      cases hu : json.unmarshalChange b with
      | error e => simp [didChange, carriedText, changeText, hm, hu]
      | ok change => simp [didChange, carriedText, changeText, hm, hu]

theorem applyNotification_documents (json : JsonCodec) (s : Server) (n : Notification)
    (u : String) :
    (applyNotification json s n).documents u =
      (if n.uri = u then carriedText json n else none).or (s.documents u) := by
  cases n with
  | didOpen params =>
    simp only [applyNotification, didOpen_documents, Notification.uri, carriedText]
    by_cases hu : params.textDocument.uri = u
    · subst hu
      simp [Documents.set]
    · have hu1 : u ≠ params.textDocument.uri := fun h => hu h.symm
      simp [Documents.set, hu, hu1]
  | didChange params =>
    simp only [applyNotification, didChange_documents, Notification.uri]
    by_cases hu : params.uri = u
    · subst hu
      cases carriedText json (Notification.didChange params) <;> simp [Documents.set]
    · have hu1 : u ≠ params.uri := fun h => hu h.symm
      cases carriedText json (Notification.didChange params) <;>
        simp [Documents.set, hu, hu1]

theorem applyNotifications_documents (json : JsonCodec) (s : Server)
    (ns : List Notification) (u : String) :
    (applyNotifications json s ns).documents u =
      (lastTextFor json u ns).or (s.documents u) := by
  induction ns using List.reverseRecOn with
  | nil => simp [applyNotifications, lastTextFor]
  | append_singleton ns n ih =>
    have hfold : applyNotifications json s (ns ++ [n]) =
        applyNotification json (applyNotifications json s ns) n := by
      simp [applyNotifications, List.foldl_append]
    rw [hfold, applyNotification_documents, ih]
    simp only [lastTextFor, List.filterMap_append, List.getLast?_append]
    cases hc : (if n.uri = u then carriedText json n else none) with
    | none => simp [List.filterMap_cons, hc]
    | some t => simp [List.filterMap_cons, hc]

/-- C1: after any sequence of `didOpen` and `didChange` notifications, the entry of a
URI `u` is the text carried by the last notification that targeted `u` and carried
text, and is the initial entry when there is none.  In particular an open followed by
an update leaves the text of the update, and an update of a URI that was never opened
creates the entry. -/
theorem store_last_write_wins (json : JsonCodec) (s : Server) (ns : List Notification)
    (u : String) :
    ((applyNotifications json s ns).documents u =
      match lastTextFor json u ns with
      | some t => some t
      | none => s.documents u) ∧
    (∀ (t1 : String) (first : AnyValue) (rest : List AnyValue) (b : String)
      (change : TextDocumentContentChangeEvent),
      json.marshalAny first = .ok b → json.unmarshalChange b = .ok change →
      (applyNotifications json s
        [Notification.didOpen ⟨⟨u, t1⟩⟩,
         Notification.didChange ⟨u, first :: rest⟩]).documents u = some change.text) ∧
    (∀ (first : AnyValue) (rest : List AnyValue) (b : String)
      (change : TextDocumentContentChangeEvent),
      s.documents u = none →
      json.marshalAny first = .ok b → json.unmarshalChange b = .ok change →
      (didChange json ⟨u, first :: rest⟩ s).1 = none ∧
      (applyNotifications json s
        [Notification.didChange ⟨u, first :: rest⟩]).documents u = some change.text) := by
  refine ⟨?_, ?_, ?_⟩
  · rw [applyNotifications_documents]
    cases lastTextFor json u ns <;> rfl
  · intro t1 first rest b change hm hu
    simp [applyNotifications, applyNotification, didOpen, didChange, hm, hu, Documents.set]
  · intro first rest b change _ hm hu
    simp [applyNotifications, applyNotification, didChange, hm, hu, Documents.set]

/-- C1, concrete instance: open `"a"`, change `"b"`, change `"a"`, then a change of `"a"`
with an empty change list; `"a"` holds the text of its last change, `"b"` (never
opened) holds its own, and `"c"` stays absent. -/
theorem store_last_write_wins_witness :
    sampleCodec.marshalAny (AnyValue.string "t2") = .ok "t2" ∧
    sampleCodec.unmarshalChange "t2" = .ok ⟨none, none, "t2"⟩ ∧
    (applyNotifications sampleCodec ⟨Documents.empty, []⟩
      [Notification.didOpen ⟨⟨"a", "t1"⟩⟩,
       Notification.didChange ⟨"a", [AnyValue.string "t2"]⟩]).documents "a" = some "t2" ∧
    (applyNotifications sampleCodec ⟨Documents.empty, []⟩
      [Notification.didOpen ⟨⟨"a", "t1"⟩⟩,
       Notification.didChange ⟨"b", [AnyValue.string "t3"]⟩,
       Notification.didChange ⟨"a", [AnyValue.string "t2", AnyValue.null]⟩,
       Notification.didChange ⟨"a", []⟩]).documents "a" = some "t2" ∧
    (applyNotifications sampleCodec ⟨Documents.empty, []⟩
      [Notification.didOpen ⟨⟨"a", "t1"⟩⟩,
       Notification.didChange ⟨"b", [AnyValue.string "t3"]⟩]).documents "b" = some "t3" :=
  ⟨rfl, by simp [sampleCodec],
   (store_last_write_wins sampleCodec ⟨Documents.empty, []⟩ [] "a").2.1 "t1"
     (AnyValue.string "t2") [] "t2" ⟨none, none, "t2"⟩ rfl (by simp [sampleCodec]),
   by decide, by decide⟩

/-- C2: `didChange` with an empty change list returns no error and leaves the state
untouched; with a non-empty list whose first entry decodes to a change event it returns
no error and the store afterwards is the old one with the URI mapped to the text of
that event, whatever its range; and the outcome never depends on the entries after the
first. -/
theorem didChange_first_entry (json : JsonCodec) (s : Server) (u : String) :
    didChange json ⟨u, []⟩ s = (none, s) ∧
    (∀ (first : AnyValue) (rest : List AnyValue) (b : String)
      (change : TextDocumentContentChangeEvent),
      json.marshalAny first = .ok b → json.unmarshalChange b = .ok change →
      (didChange json ⟨u, first :: rest⟩ s).1 = none ∧
      (didChange json ⟨u, first :: rest⟩ s).2.documents u = some change.text ∧
      (didChange json ⟨u, first :: rest⟩ s).2.documents = s.documents.set u change.text ∧
      (didChange json ⟨u, first :: rest⟩ s).2.trace = s.trace) ∧
    (∀ (first : AnyValue) (rest rest1 : List AnyValue),
      didChange json ⟨u, first :: rest⟩ s = didChange json ⟨u, first :: rest1⟩ s) := by
  refine ⟨rfl, ?_, ?_⟩
  · intro first rest b change hm hu
    simp [didChange, hm, hu, Documents.set]
  · intro first rest rest1
    rfl

/-- C2, concrete instance: a change of `"a"` whose first entry carries a range and the
text `"new"`, followed by an entry that does not decode. -/
theorem didChange_first_entry_witness :
    sampleCodec.marshalAny (AnyValue.string "new") = .ok "new" ∧
    sampleCodec.unmarshalChange "new" = .ok ⟨some ⟨0, 0, 0, 3⟩, some 3, "new"⟩ ∧
    (didChange sampleCodec ⟨"a", [AnyValue.string "new", AnyValue.null]⟩
      sampleServer).2.documents "a" = some "new" :=
  ⟨rfl, by simp [sampleCodec],
   ((didChange_first_entry sampleCodec sampleServer "a").2.1 (AnyValue.string "new")
      [AnyValue.null] "new" ⟨some ⟨0, 0, 0, 3⟩, some 3, "new"⟩ rfl
      (by simp [sampleCodec])).2.1⟩

/-- C10: a `didOpen` or `didChange` for a URI leaves the entry of every other URI as it
was and removes no entry, and `completion` leaves the whole store as it was. -/
theorem handlers_frame (json : JsonCodec) (parse : ProgramParser) (order : RangeOrder)
    (s : Server) :
    (∀ (params : DidOpenTextDocumentParams) (k : String), k ≠ params.textDocument.uri →
      (didOpen params s).2.documents k = s.documents k) ∧
    (∀ (params : DidOpenTextDocumentParams) (k : String), s.documents k ≠ none →
      (didOpen params s).2.documents k ≠ none) ∧
    (∀ (params : DidChangeTextDocumentParams) (k : String), k ≠ params.uri →
      (didChange json params s).2.documents k = s.documents k) ∧
    (∀ (params : DidChangeTextDocumentParams) (k : String), s.documents k ≠ none →
      (didChange json params s).2.documents k ≠ none) ∧
    (∀ params : CompletionParams,
      (completion parse order params s).2.documents = s.documents) := by
  refine ⟨?_, ?_, ?_, ?_, ?_⟩
  · intro params k hk
    rw [didOpen_documents, Documents.set_other _ _ _ _ hk]
  · intro params k hk
    rw [didOpen_documents]
    unfold Documents.set
    split
    · simp
    · exact hk
  · intro params k hk
    rw [didChange_documents]
    cases carriedText json (Notification.didChange params) with
    | none => rfl
    | some t => exact Documents.set_other _ _ _ _ hk
  · intro params k hk
    rw [didChange_documents]
    cases carriedText json (Notification.didChange params) with
    | none => exact hk
    | some t =>
      show (if k = params.uri then some t else s.documents k) ≠ none
      split
      · simp
      · exact hk
  · intro params
    exact completion_documents parse order params s

/-- C10, concrete instance: opening `"b"` and changing `"b"` keep the entry of `"a"`, and
completion for `"a"` keeps the store. -/
theorem handlers_frame_witness :
    "a" ≠ "b" ∧
    (didOpen ⟨⟨"b", "t"⟩⟩ sampleServer).2.documents "a" = sampleServer.documents "a" ∧
    (didChange sampleCodec ⟨"b", [AnyValue.string "t"]⟩ sampleServer).2.documents "a" =
      some "f g x" ∧
    (completion sampleParser RangeOrder.insertion ⟨"a", 0, 0⟩ sampleServer).2.documents =
      sampleServer.documents :=
  ⟨by decide,
   (handlers_frame sampleCodec sampleParser RangeOrder.insertion sampleServer).1
     ⟨⟨"b", "t"⟩⟩ "a" (by decide),
   (handlers_frame sampleCodec sampleParser RangeOrder.insertion sampleServer).2.2.1
     ⟨"b", [AnyValue.string "t"]⟩ "a" (by decide),
   (handlers_frame sampleCodec sampleParser RangeOrder.insertion sampleServer).2.2.2.2
     ⟨"a", 0, 0⟩⟩

/-! ## The request router -/

theorem unmarshalParams_of_undecodable {α : Type} (json : JsonCodec) (ctx : Context)
    (unmarshal : String → Except String α)
    (h : undecodable json unmarshal ctx.params = true) :
    ∃ e, unmarshalParams json ctx unmarshal = .error e := by
  unfold undecodable at h
  unfold unmarshalParams
  cases hp : ctx.params with
  | none => exact ⟨_, rfl⟩
  | some raw =>
    rw [hp] at h
    simp only at h ⊢
    cases hm : json.marshalParams raw with
    | error e => exact ⟨e, rfl⟩
    | ok b =>
      rw [hm] at h
      simp only at h ⊢
      cases hu : unmarshal b with
      | error e => exact ⟨e, rfl⟩
      | ok v => rw [hu] at h; simp at h

theorem unmarshalParams_of_firstChangeUndecodable (json : JsonCodec) (ctx : Context)
    (h : firstChangeUndecodable json ctx.params = true) :
    ∃ uri first rest, unmarshalParams json ctx json.unmarshalDidChangeParams =
        .ok ⟨uri, first :: rest⟩ ∧ changeText json first = none := by
  unfold firstChangeUndecodable at h
  unfold unmarshalParams
  cases hp : ctx.params with
  | none => rw [hp] at h; simp at h
  | some raw =>
    rw [hp] at h
    simp only at h ⊢
    cases hm : json.marshalParams raw with
    | error e => rw [hm] at h; simp at h
    | ok b =>
      rw [hm] at h
      simp only at h ⊢
      cases hu : json.unmarshalDidChangeParams b with
      | error e => rw [hu] at h; simp at h
      | ok params =>
        rw [hu] at h
        obtain ⟨uri, changes⟩ := params
        cases changes with
        | nil => simp at h
        | cons first rest =>
          simp only [Option.isNone_iff_eq_none] at h
          exact ⟨uri, first, rest, rfl, h⟩

theorem didChange_of_changeText_none (json : JsonCodec) (uri : String) (first : AnyValue)
    (rest : List AnyValue) (s : Server) (h : changeText json first = none) :
    ∃ e, didChange json ⟨uri, first :: rest⟩ s = (some e, s) := by
  unfold changeText at h
  unfold didChange
  simp only
  cases hm : json.marshalAny first with
  | error e => exact ⟨e, rfl⟩
  | ok b =>
    rw [hm] at h
    simp only at h ⊢
    cases hu : json.unmarshalChange b with
    | error e => exact ⟨e, rfl⟩
    | ok change => rw [hu] at h; simp at h

/-- C8: when a request to `textDocument/didOpen`, `textDocument/didChange` or
`textDocument/completion` has a missing payload, or one that fails to decode into the
parameter structure of its method (for `didChange` also when the first content change
fails to decode), `Handle` returns a non-nil error and the document store afterwards
is the store before the request. -/
theorem Handle_malformed_request (json : JsonCodec) (parse : ProgramParser)
    (order : RangeOrder) (base : BaseHandler) (ctx : Context) (s : Server)
    (h : malformedRequest json ctx = true) :
    (Handle json parse order base ctx s).1.err ≠ none ∧
    (Handle json parse order base ctx s).2.documents = s.documents ∧
    (Handle json parse order base ctx s).2 = s := by
  have h12 : "textDocument/didChange" ≠ "textDocument/didOpen" := by decide
  have h13 : "textDocument/completion" ≠ "textDocument/didOpen" := by decide
  have h23 : "textDocument/completion" ≠ "textDocument/didChange" := by decide
  simp only [malformedRequest, Bool.or_eq_true, Bool.and_eq_true, beq_iff_eq] at h
  rcases h with (⟨hm, hu⟩ | ⟨hm, hu | hu⟩) | ⟨hm, hu⟩
  · obtain ⟨e, he⟩ := unmarshalParams_of_undecodable json ctx _ hu
    simp [Handle, hm, he]
  · obtain ⟨e, he⟩ := unmarshalParams_of_undecodable json ctx _ hu
    simp [Handle, hm, he, h12]
  · obtain ⟨uri, first, rest, hp, hc⟩ := unmarshalParams_of_firstChangeUndecodable json ctx hu
    obtain ⟨e, he⟩ := didChange_of_changeText_none json uri first rest s hc
    simp [Handle, hm, hp, he, h12]
  · obtain ⟨e, he⟩ := unmarshalParams_of_undecodable json ctx _ hu
    simp [Handle, hm, he, h13, h23]

/-- C8, concrete instance: a `didChange` for the stored document `"a"` whose first
content change does not decode returns an error and keeps the text of `"a"`. -/
theorem Handle_malformed_request_witness :
    malformedRequest sampleCodec ⟨"textDocument/didChange", some "a"⟩ = true ∧
    (Handle sampleCodec sampleParser RangeOrder.insertion sampleBase
      ⟨"textDocument/didChange", some "a"⟩ sampleServer).1.err = some "unsupported value" ∧
    (Handle sampleCodec sampleParser RangeOrder.insertion sampleBase
      ⟨"textDocument/didChange", some "a"⟩ sampleServer).2.documents =
      sampleServer.documents :=
  ⟨by decide, by decide,
   (Handle_malformed_request sampleCodec sampleParser RangeOrder.insertion sampleBase
     ⟨"textDocument/didChange", some "a"⟩ sampleServer (by decide)).2.1⟩

/-- C9: for a method other than the three document methods, `Handle` returns exactly
what the base handler returns for the same context, keeps the document store, and
consults the base handler once with that context; for each of the three document
methods the handled flag is true, the base handler is not consulted (no call to it is
recorded, and the outcome is the same for every base handler). -/
theorem Handle_dispatch (json : JsonCodec) (parse : ProgramParser) (order : RangeOrder)
    (base : BaseHandler) (ctx : Context) (s : Server) :
    (ctx.method ≠ "textDocument/didOpen" → ctx.method ≠ "textDocument/didChange" →
      ctx.method ≠ "textDocument/completion" →
      (Handle json parse order base ctx s).1 = base ctx ∧
      (Handle json parse order base ctx s).1.err = (base ctx).err ∧
      (Handle json parse order base ctx s).2.documents = s.documents ∧
      (Handle json parse order base ctx s).2.trace = s.trace ++ [Call.baseHandle ctx]) ∧
    (ctx.method = "textDocument/didOpen" ∨ ctx.method = "textDocument/didChange" ∨
      ctx.method = "textDocument/completion" →
      (Handle json parse order base ctx s).1.handled = true ∧
      (∃ added, (Handle json parse order base ctx s).2.trace = s.trace ++ added ∧
        ∀ c, Call.baseHandle c ∉ added) ∧
      ∀ base1 : BaseHandler,
        Handle json parse order base1 ctx s = Handle json parse order base ctx s) := by
  have h12 : "textDocument/didChange" ≠ "textDocument/didOpen" := by decide
  have h13 : "textDocument/completion" ≠ "textDocument/didOpen" := by decide
  have h23 : "textDocument/completion" ≠ "textDocument/didChange" := by decide
  constructor
  · intro h1 h2 h3
    simp [Handle, h1, h2, h3]
  · rintro (hm | hm | hm)
    · refine ⟨?_, ⟨[], ?_, by simp⟩, ?_⟩
      · simp only [Handle, hm, if_true]
        split <;> rfl
      · simp only [Handle, hm, if_true]
        split <;> simp [didOpen]
      · intro base1
        simp only [Handle, hm, if_true]
    · refine ⟨?_, ⟨[], ?_, by simp⟩, ?_⟩
      · simp only [Handle, hm, h12, if_true, if_false]
        split <;> rfl
      · simp only [Handle, hm, h12, if_true, if_false]
        split
        · simp
        · rename_i p _
          obtain ⟨uri, changes⟩ := p
          simp only [didChange]
          cases changes with
          | nil => simp
          | cons first rest =>
            simp only
            cases json.marshalAny first with
            | error e => simp
            | ok b =>
              simp only
              cases json.unmarshalChange b with
              | error e => simp
              | ok change => simp
      · intro base1
        simp only [Handle, hm, h12, if_true, if_false]
    · refine ⟨?_, ?_, ?_⟩
      · simp only [Handle, hm, h13, h23, if_true, if_false]
        split <;> rfl
      · simp only [Handle, hm, h13, h23, if_true, if_false]
        split
        · exact ⟨[], by simp, by simp⟩
        · rename_i p _
          simp only [completion]
          split
          · exact ⟨[], by simp, by simp⟩
          · rename_i doc _
            refine ⟨[Call.parseProgram doc], ?_, by simp⟩
            dsimp only
            split <;> rfl
      · intro base1
        simp only [Handle, hm, h13, h23, if_true, if_false]

/-- C9, concrete instance: `initialize` is answered by the sample base handler, error
included; `textDocument/completion` is answered without it. -/
theorem Handle_dispatch_witness :
    "initialize" ≠ "textDocument/didOpen" ∧
    (Handle sampleCodec sampleParser RangeOrder.insertion sampleBase
      ⟨"initialize", none⟩ sampleServer).1 =
      ⟨AnyResult.foreign "initialize", true, true, some "not ready"⟩ ∧
    (Handle sampleCodec sampleParser RangeOrder.insertion sampleBase
      ⟨"textDocument/completion", some "a"⟩ sampleServer).1.handled = true :=
  ⟨by decide,
   ((Handle_dispatch sampleCodec sampleParser RangeOrder.insertion sampleBase
     ⟨"initialize", none⟩ sampleServer).1 (by decide) (by decide) (by decide)).1,
   ((Handle_dispatch sampleCodec sampleParser RangeOrder.insertion sampleBase
     ⟨"textDocument/completion", some "a"⟩ sampleServer).2 (Or.inr (Or.inr rfl))).1⟩

end CarrionLSP
